import Mathlib

/-!
Verification of the pick-list pipeline (`src/app.py`).

The pipeline is shallowly embedded: dataframe cells become the inductive
type `Cell` (a missing value, a string, or a number modelled as a rational),
tables become lists of typed row structures, Python dicts become
`Cell → Option Cell` functions built by `buildDict`, and the pandas
operations used by `process_data` (boolean-mask filtering, multi-column
`sort_values`, which is a stable lexicographic sort) become `List.filter`
and `List.mergeSort` with an explicit comparator.
-/

/-- A dataframe cell: missing (NaN/None), a string, or a number.
Numbers are modelled as rationals. -/
inductive Cell where
  | na : Cell
  | str : String → Cell
  | num : ℚ → Cell
deriving DecidableEq

/-- Python truthiness of a cell value: the empty string and the number 0 are
falsy; a float NaN is truthy in Python. -/
def Cell.truthy : Cell → Bool
  | Cell.na => true
  | Cell.str s => s ≠ ""
  | Cell.num q => q ≠ 0

/-- Model of `pd.notna`: false exactly on missing values. -/
def Cell.notna : Cell → Bool
  | Cell.na => false
  | _ => true

/-- Numeric value of a digit string (most significant first). -/
def natOfDigits (l : List Char) : Nat :=
  l.foldl (fun n c => n * 10 + (c.toNat - 48)) 0

/-- Parse an unsigned decimal literal (digits with an optional fractional
part), the forms produced by these CSV exports. -/
def parseDecimal (cs : List Char) : Option ℚ :=
  let intPart := cs.takeWhile Char.isDigit
  let rest := cs.dropWhile Char.isDigit
  match rest with
  | [] => if intPart.isEmpty then none else some (natOfDigits intPart : ℚ)
  | '.' :: frac =>
    if frac.all Char.isDigit && !(intPart.isEmpty && frac.isEmpty) then
      some ((natOfDigits intPart : ℚ) + (natOfDigits frac : ℚ) / (10 ^ frac.length : ℚ))
    else none
  | _ => none

/-- Model of Python `float(s)` on a string: `none` models a raised
`ValueError` (non-numeric text). Decimal literals with an optional sign;
exotic accepted forms (exponents, inf) are outside the model. -/
def pyFloatOfString (s : String) : Option ℚ :=
  match s.toList with
  | '-' :: rest => (parseDecimal rest).map (fun q => -q)
  | '+' :: rest => parseDecimal rest
  | cs => parseDecimal cs

/-- Model of Python `float(x)` on a cell; `none` models a raised error.
In `process_data` it is only reached on cells that passed `pd.notna`,
so the `na` branch is never consulted there. -/
def pyFloat : Cell → Option ℚ
  | Cell.na => none
  | Cell.num q => some q
  | Cell.str s => pyFloatOfString s

/-- Model of `round(x, 2)`: round to two decimal places (rational model of the
float rounding in the source). -/
def round2 (q : ℚ) : ℚ := (round (q * 100) : ℚ) / 100

/-- A sales-order row, the columns extracted by `process_data`. -/
structure SalesRow where
  customer : Cell
  order_number : Cell
  category : Cell
  product : Cell
  product_id : Cell
  batch_number : Cell
  package_label : Cell
  quantity : Cell
deriving DecidableEq

/-- An assembly row: the `Input/Output` direction cell plus the two
identifier cells used by the lookup maps. -/
structure AssemblyRow where
  direction : Cell
  package_number : Cell
  assembly_number : Cell
deriving DecidableEq

/-- A product-catalog row: `ID` and `Units Per Case`. -/
structure ProductRow where
  id : Cell
  units_per_case : Cell
deriving DecidableEq

/-- A row of the normalized output table, in the column order fixed by
`process_data`. -/
structure NormalizedRow where
  customer : Cell
  order_number : Cell
  category : Cell
  product : Cell
  batch_number : Cell
  input_package_number : Cell
  quantity : Cell
  cases : Cell
deriving DecidableEq

/-- Model of `dict(zip(keys, values))`: lookup in a Python dict built from a list of
key/value pairs, where a later pair with the same key overwrites an
earlier one. -/
def buildDict : List (Cell × Cell) → Cell → Option Cell
  | [] => fun _ => none
  | kv :: rest => fun k =>
    match buildDict rest k with
    | some v => some v
    | none => if k = kv.1 then some kv.2 else none

/-- The key/value pairs fed to the Output-direction dict: rows whose
`Input/Output` cell is exactly the string `Output`, keyed by
`Package Number` with value `Assembly Number`. -/
def outputPairs (adf : List AssemblyRow) : List (Cell × Cell) :=
  (adf.filter (fun r => decide (r.direction = Cell.str "Output"))).map
    (fun r => (r.package_number, r.assembly_number))

/-- The key/value pairs fed to the Input-direction dict: rows whose
`Input/Output` cell is exactly the string `Input`, keyed by
`Assembly Number` with value `Package Number`. -/
def inputPairs (adf : List AssemblyRow) : List (Cell × Cell) :=
  (adf.filter (fun r => decide (r.direction = Cell.str "Input"))).map
    (fun r => (r.assembly_number, r.package_number))

/-- First lookup map: Package Label → Assembly Number, from Output records. -/
def package_to_assembly (adf : List AssemblyRow) : Cell → Option Cell :=
  buildDict (outputPairs adf)

/-- Second lookup map: Assembly Number → Package Number, from Input records. -/
def assembly_to_input_package (adf : List AssemblyRow) : Cell → Option Cell :=
  buildDict (inputPairs adf)

/-- Product lookup map: Product ID → Units Per Case. -/
def product_lookup (pdf : List ProductRow) : Cell → Option Cell :=
  buildDict (pdf.map (fun r => (r.id, r.units_per_case)))

/-- The two-hop chained lookup of `process_data`:
`package_to_assembly.get(label, None)`, then, only when the found assembly
number is truthy, `assembly_to_input_package.get(assembly_number, "")`;
every break of the chain yields the empty string. -/
def chainedLookup (outM inM : Cell → Option Cell) (label : Cell) : Cell :=
  match outM label with
  | none => Cell.str ""
  | some a => if a.truthy = true then (inM a).getD (Cell.str "") else Cell.str ""

/-- The cases computation of `process_data`: look up `Units Per Case` by
product id and divide quantity by it, rounded to two decimals, guarded by
`pd.notna`, inequality with the empty string, and positivity; every other
outcome (including a raised `float` conversion, caught by the bare
`except`) is the blank marker, the empty string. -/
def computeCases (pl : Cell → Option Cell) (productId quantity : Cell) : Cell :=
  match pl productId with
  | none => Cell.str ""
  | some u =>
    if u.notna = true ∧ u ≠ Cell.str "" ∧ quantity.notna = true ∧ quantity ≠ Cell.str "" then
      match pyFloat u with
      | none => Cell.str ""
      | some uq =>
        if 0 < uq then
          match pyFloat quantity with
          | none => Cell.str ""
          | some qq => Cell.num (round2 (qq / uq))
        else Cell.str ""
    else Cell.str ""

/-- Build one normalized row from a sales row: pass the key columns
through, resolve the chained lookup, and compute cases when a product
table was supplied (otherwise the blank marker). -/
def normalizeRow (outM inM : Cell → Option Cell) (prodM : Option (Cell → Option Cell))
    (r : SalesRow) : NormalizedRow :=
  { customer := r.customer
    order_number := r.order_number
    category := r.category
    product := r.product
    batch_number := r.batch_number
    input_package_number := chainedLookup outM inM r.package_label
    quantity := r.quantity
    cases := match prodM with
      | none => Cell.str ""
      | some pl => computeCases pl r.product_id r.quantity }

/-- The row-survival predicate of `process_data`:
`Customer.notna() & (Customer != "")`. -/
def goodCust (c : Cell) : Bool := c.notna && decide (c ≠ Cell.str "")

/-- Survival predicate on a normalized row. -/
def goodCustomer (r : NormalizedRow) : Bool := goodCust r.customer

/-- Rank used to totalize comparisons across cell constructors (pandas
raises on mixed-type comparisons; the choice is irrelevant to the claims,
which only compare like with like). -/
def cellRank : Cell → Nat
  | Cell.str _ => 0
  | Cell.num _ => 1
  | Cell.na => 2

/-- Total comparator on cells: strings lexicographically, numbers by
value, unlike constructors by rank. -/
def cellLe : Cell → Cell → Bool
  | Cell.str a, Cell.str b => decide (a ≤ b)
  | Cell.num a, Cell.num b => decide (a ≤ b)
  | a, b => decide (cellRank a ≤ cellRank b)

/-- Lexicographic comparator on lists of cells (equal heads recurse). -/
def lexCellLe : List Cell → List Cell → Bool
  | [], _ => true
  | _ :: _, [] => false
  | a :: as, b :: bs => if a = b then lexCellLe as bs else cellLe a b

/-- The sort key of `sort_values(['Customer', 'Order_Number', 'Category', 'Product'])`. -/
def keyOf (r : NormalizedRow) : List Cell :=
  [r.customer, r.order_number, r.category, r.product]

/-- Row comparator for the final sort. -/
def rowLe (a b : NormalizedRow) : Bool := lexCellLe (keyOf a) (keyOf b)

/-- The transform `process_data`: normalize every sales row (chained lookup plus cases),
drop rows with a missing or empty customer, and stably sort the survivors
by (customer, order number, category, product) ascending. pandas
`sort_values` on several columns uses `numpy.lexsort`, a stable sort,
embedded here as `List.mergeSort`. -/
def process_data (so : List SalesRow) (adf : List AssemblyRow)
    (pdf : Option (List ProductRow)) : List NormalizedRow :=
  let outM := package_to_assembly adf
  let inM := assembly_to_input_package adf
  let prodM := pdf.map product_lookup
  let rows := so.map (normalizeRow outM inM prodM)
  let kept := rows.filter goodCustomer
  kept.mergeSort rowLe

/-- The candidate order numbers offered by the orders multiselect: when at
least one customer is selected, restrict to rows of the selected
customers; take `.unique()` (first occurrence kept) of the order-number
column and sort it. -/
def uniqueFirst (l : List Cell) : List Cell :=
  l.foldl (fun acc a => if a ∈ acc then acc else acc ++ [a]) []

/-- Cascading candidate list for the orders filter (`src/app.py` lines
555-560). -/
def availableOrders (table : List NormalizedRow) (selectedCustomers : List Cell) :
    List Cell :=
  let rows :=
    if selectedCustomers.isEmpty then table
    else table.filter (fun r => decide (r.customer ∈ selectedCustomers))
  (uniqueFirst (rows.map (fun r => r.order_number))).mergeSort cellLe

/-- The three multiselect dimensions; an empty list imposes no
restriction. -/
structure FilterCriteria where
  customers : List Cell
  orders : List Cell
  categories : List Cell

/-- The filter section of the app: three successive boolean-mask
restrictions by set membership, each applied only when its dimension is
non-empty (`src/app.py` lines 589-602). -/
def applyFilters (table : List NormalizedRow) (c : FilterCriteria) : List NormalizedRow :=
  let t1 :=
    if c.customers.isEmpty then table
    else table.filter (fun r => decide (r.customer ∈ c.customers))
  let t2 :=
    if c.orders.isEmpty then t1
    else t1.filter (fun r => decide (r.order_number ∈ c.orders))
  if c.categories.isEmpty then t2
  else t2.filter (fun r => decide (r.category ∈ c.categories))

/-- Python `str.strip()`: drop whitespace from both ends. -/
def pyStrip (cs : List Char) : List Char :=
  ((cs.dropWhile Char.isWhitespace).reverse.dropWhile Char.isWhitespace).reverse

/-- A break character of the wrapping functions. -/
def isBreakChar (c : Char) : Bool := c = '-' || c = ' '

/-- Result of the combined break search of `wrap_text`: the Python loop
index at which a hyphen or a space was found. -/
inductive BreakHit where
  | hyphen : Nat → BreakHit
  | space : Nat → BreakHit
deriving DecidableEq

/-- The descending break search of `wrap_text`:
`for i in range(hi, lo, -1)`, guarded by `i < len(text)`, checking
`text[i-1]` for a hyphen and then a space at the same index. -/
def findBreak (t : List Char) (lo : Nat) : Nat → Option BreakHit
  | 0 => none
  | v + 1 =>
    if v + 1 ≤ lo then none
    else if v + 1 < t.length then
      match t.get? v with
      | some c =>
        if c = '-' then some (BreakHit.hyphen (v + 1))
        else if c = ' ' then some (BreakHit.space (v + 1))
        else findBreak t lo v
      | none => findBreak t lo v
    else findBreak t lo v

/-- The descending single-character search of `wrap_text_smart`: the first
(largest) loop index `i` in `range(hi, lo, -1)` with `i < len(text)` and
`text[i-1] == c`. -/
def findCharDown (t : List Char) (c : Char) (lo : Nat) : Nat → Option Nat
  | 0 => none
  | v + 1 =>
    if v + 1 ≤ lo then none
    else if v + 1 < t.length then
      match t.get? v with
      | some c2 => if c2 = c then some (v + 1) else findCharDown t c lo v
      | none => findCharDown t c lo v
    else findCharDown t c lo v

/-- Whether the searched region `range(hi, lo, -1)` (with the source's
`i < len(text)` guard) contains a break character at `text[i-1]`. -/
def breakInRegion (t : List Char) (lo : Nat) : Nat → Bool
  | 0 => false
  | v + 1 =>
    if v + 1 ≤ lo then false
    else if v + 1 < t.length then
      (match t.get? v with
       | some c => isBreakChar c
       | none => false) || breakInRegion t lo v
    else breakInRegion t lo v

/-- The function `wrap_text` (`src/app.py` lines 257-273): simple wrap for fixed-width
columns. Search for a break character between `max_length` and
`max(max_length//2, 1)`; break after a hyphen or at a space (the space is
removed); with no break point, hard-break at exactly `max_length`. -/
def wrap_text (text : String) (maxLength : Nat) : String :=
  if text = "" ∨ text.length ≤ maxLength then text
  else
    let t := text.toList
    match findBreak t (max (maxLength / 2) 1) maxLength with
    | some (BreakHit.hyphen i) => (t.take i ++ '\n' :: pyStrip (t.drop i)).asString
    | some (BreakHit.space i) => (t.take (i - 1) ++ '\n' :: pyStrip (t.drop i)).asString
    | none => (t.take maxLength ++ '\n' :: t.drop maxLength).asString

/-- The function `wrap_text_smart` (`src/app.py` lines 215-254) at a given character
budget: strip the text, return it when it fits, otherwise search the
region down to `max(budget//3, 5)` for a hyphen (preferred) and then a
space; a break position that is falsy or below `budget//3` leaves the
text unwrapped. -/
def wrap_text_smart_core (text : String) (maxChars : Nat) : String :=
  if text = "" then ""
  else
    let s := pyStrip text.toList
    if s.isEmpty then ""
    else if s.length ≤ maxChars then s.asString
    else
      let lo := max (maxChars / 3) 5
      let bb :=
        match findCharDown s '-' lo maxChars with
        | some i => some i
        | none => (findCharDown s ' ' lo maxChars).map (fun i => i - 1)
      match bb with
      | none => s.asString
      | some b =>
        if b = 0 ∨ b < maxChars / 3 then s.asString
        else (s.take b ++ '\n' :: pyStrip (s.drop b)).asString

/-- The character budget computed by `wrap_text_smart` from the physical
column width (inches) and font size:
`int((width*72 - 12) / (0.55 * font_size))`, as exact rational
arithmetic. -/
def charBudget (columnWidthInches fontSize : ℚ) : Int :=
  Int.floor ((columnWidthInches * 72 - 12) / ((55 / 100) * fontSize))

/-- The function `wrap_text_smart` with the budget derived from the column width. -/
def wrap_text_smart (text : String) (columnWidthInches fontSize : ℚ) : String :=
  wrap_text_smart_core text (charBudget columnWidthInches fontSize).toNat

/-- The output splits the text only at a break character: either right
after a hyphen, or at a space (which is removed), the remainder
stripped. -/
def splitsAtBreak (t : List Char) (out : String) : Prop :=
  ∃ i, 0 < i ∧ i ≤ t.length ∧
    ((t.get? (i - 1) = some '-' ∧ out = (t.take i ++ '\n' :: pyStrip (t.drop i)).asString) ∨
     (t.get? (i - 1) = some ' ' ∧ out = (t.take (i - 1) ++ '\n' :: pyStrip (t.drop i)).asString))

/-- Continuation pages of a ReportLab table flowable: each later page
starts with the repeated header prefix (`repeatRows` leading rows of the
table) followed by the next rows; the first argument is fuel bounding the
recursion. -/
def contPages (hdr : List α) (cap : Nat) : Nat → List α → List (List α)
  | _, [] => []
  | 0, rows => [hdr ++ rows]
  | fuel + 1, rows =>
    (hdr ++ rows.take (cap - hdr.length)) :: contPages hdr cap fuel (rows.drop (cap - hdr.length))

/-- Pagination model of a single ReportLab `Table` flowable with a fixed
per-page row capacity: the first page takes the leading rows; each later
page repeats the first `repeatRows` rows of the table data and continues
with the remaining rows in order. -/
def splitPages (tableData : List α) (repeatRows cap : Nat) : List (List α) :=
  if tableData.isEmpty then []
  else tableData.take cap ::
    contPages (tableData.take repeatRows) cap tableData.length (tableData.drop cap)

/-- Plain chunking of a row sequence into consecutive fixed-size pages
(fuel-indexed). -/
def chunkPages (cap : Nat) : Nat → List α → List (List α)
  | _, [] => []
  | 0, rows => [rows]
  | fuel + 1, rows => rows.take cap :: chunkPages cap fuel (rows.drop cap)

/-- Plain chunking of a row sequence into consecutive fixed-size pages. -/
def chunks (cap : Nat) (l : List α) : List (List α) := chunkPages cap l.length l

/-- The table data built by `generate_pdf`: one header row followed by the
data rows. -/
def generate_pdf_table_data (headers : α) (rows : List α) : List α := headers :: rows

/-- The `repeatRows` setting of the `Table` built by `generate_pdf`: the
source constructs `Table(table_data, colWidths=..., rowHeights=None)`
with no `repeatRows` argument (ReportLab default 0) — the comment in the
source reads "Create table without header repetition". -/
def generate_pdf_repeatRows : Nat := 0

/-- The pages of the document rendered by `generate_pdf`, at a given
per-page row capacity. -/
def generate_pdf_pages (headers : α) (rows : List α) (cap : Nat) : List (List α) :=
  splitPages (generate_pdf_table_data headers rows) generate_pdf_repeatRows cap

theorem cellLe_total (a b : Cell) : cellLe a b || cellLe b a := by
  cases a <;> cases b <;>
    simp only [cellLe, cellRank, Bool.or_eq_true, decide_eq_true_eq] <;>
    exact le_total _ _

theorem cellLe_antisymm : ∀ a b : Cell, cellLe a b = true → cellLe b a = true → a = b := by
  intro a b h1 h2
  cases a <;> cases b <;>
    simp only [cellLe, cellRank, decide_eq_true_eq] at h1 h2 <;>
    first
      | rfl
      | omega
      | exact congrArg Cell.str (le_antisymm h1 h2)
      | exact congrArg Cell.num (le_antisymm h1 h2)

theorem cellLe_trans : ∀ a b c : Cell, cellLe a b = true → cellLe b c = true → cellLe a c = true := by
  intro a b c h1 h2
  cases a <;> cases b <;> cases c <;>
    simp only [cellLe, cellRank, decide_eq_true_eq] at h1 h2 ⊢ <;>
    first
      | omega
      | exact le_trans h1 h2

theorem lexCellLe_refl : ∀ k : List Cell, lexCellLe k k = true
  | [] => rfl
  | a :: as => by simp [lexCellLe, lexCellLe_refl as]

theorem lexCellLe_total : ∀ k1 k2 : List Cell, lexCellLe k1 k2 || lexCellLe k2 k1
  | [], k2 => by simp [lexCellLe]
  | a :: as, [] => by simp [lexCellLe]
  | a :: as, b :: bs => by
    by_cases hab : a = b
    · subst hab
      simpa [lexCellLe] using lexCellLe_total as bs
    · have hba : ¬ b = a := fun h => hab h.symm
      simpa [lexCellLe, hab, hba] using cellLe_total a b

theorem lexCellLe_trans : ∀ k1 k2 k3 : List Cell,
    lexCellLe k1 k2 = true → lexCellLe k2 k3 = true → lexCellLe k1 k3 = true
  | [], _, _, _, _ => rfl
  | _ :: _, [], _, h1, _ => by simp [lexCellLe] at h1
  | _ :: _, _ :: _, [], _, h2 => by simp [lexCellLe] at h2
  | a :: as, b :: bs, c :: cs, h1, h2 => by
    by_cases hab : a = b
    · subst hab
      by_cases hbc : a = c
      · subst hbc
        simp only [lexCellLe, if_pos rfl] at h1 h2 ⊢
        exact lexCellLe_trans as bs cs h1 h2
      · simpa [lexCellLe, hbc] using (by simpa [lexCellLe, hbc] using h2 : cellLe a c = true)
    · by_cases hbc : b = c
      · subst hbc
        simpa [lexCellLe, hab] using (by simpa [lexCellLe, hab] using h1 : cellLe a b = true)
      · have hab2 : cellLe a b = true := by simpa [lexCellLe, hab] using h1
        have hbc2 : cellLe b c = true := by simpa [lexCellLe, hbc] using h2
        by_cases hac : a = c
        · subst hac
          exact absurd (cellLe_antisymm a b hab2 hbc2) hab
        · simpa [lexCellLe, hac] using cellLe_trans a b c hab2 hbc2

theorem rowLe_total (a b : NormalizedRow) : rowLe a b || rowLe b a :=
  lexCellLe_total (keyOf a) (keyOf b)

theorem rowLe_trans (a b c : NormalizedRow) :
    rowLe a b = true → rowLe b c = true → rowLe a c = true :=
  lexCellLe_trans (keyOf a) (keyOf b) (keyOf c)

theorem rowLe_of_key_eq {a b : NormalizedRow} (h : keyOf a = keyOf b) : rowLe a b = true := by
  rw [rowLe, h]
  exact lexCellLe_refl (keyOf b)

theorem goodCust_iff (c : Cell) : goodCust c = true ↔ c ≠ Cell.na ∧ c ≠ Cell.str "" := by
  cases c <;> simp [goodCust, Cell.notna]

theorem process_data_eq (so : List SalesRow) (adf : List AssemblyRow)
    (pdf : Option (List ProductRow)) :
    process_data so adf pdf =
      ((so.map (normalizeRow (package_to_assembly adf) (assembly_to_input_package adf)
        (pdf.map product_lookup))).filter goodCustomer).mergeSort rowLe := rfl

/-- The value bound to a key by the last pair carrying that key, in source
order: the independent statement of last-wins semantics. -/
def lastValue (pairs : List (Cell × Cell)) (k : Cell) : Option Cell :=
  (pairs.reverse.find? (fun p => decide (p.1 = k))).map (fun p => p.2)

theorem buildDict_eq_lastValue : ∀ (pairs : List (Cell × Cell)) (k : Cell),
    buildDict pairs k = lastValue pairs k
  | [], k => rfl
  | kv :: rest, k => by
    have ih := buildDict_eq_lastValue rest k
    simp only [buildDict, lastValue, List.reverse_cons, List.find?_append, ih]
    cases h : (rest.reverse.find? (fun p => decide (p.1 = k))) with
    | some q => simp [lastValue, h, Option.or]
    | none =>
      simp only [lastValue, h, Option.map_none', Option.or]
      simp only [List.find?]
      by_cases hk : kv.1 = k
      · simp [hk, decide_eq_true_eq, eq_comm]
      · have hk2 : ¬ k = kv.1 := fun h2 => hk h2.symm
        simp [hk, hk2]

theorem mem_uniqueFirst_aux : ∀ (l acc : List Cell) (x : Cell),
    (x ∈ l.foldl (fun acc a => if a ∈ acc then acc else acc ++ [a]) acc ↔ x ∈ acc ∨ x ∈ l)
  | [], acc, x => by simp
  | a :: l, acc, x => by
    simp only [List.foldl_cons]
    rw [mem_uniqueFirst_aux l _ x]
    by_cases h : a ∈ acc
    · simp only [if_pos h, List.mem_cons]
      constructor
      · rintro (hx | hx)
        · exact Or.inl hx
        · exact Or.inr (Or.inr hx)
      · rintro (hx | hx | hx)
        · exact Or.inl hx
        · subst hx; exact Or.inl h
        · exact Or.inr hx
    · simp only [if_neg h, List.mem_append, List.mem_singleton, List.mem_cons]
      tauto

theorem mem_uniqueFirst (x : Cell) (l : List Cell) : x ∈ uniqueFirst l ↔ x ∈ l := by
  rw [uniqueFirst, mem_uniqueFirst_aux]
  simp

theorem pyFloat_some_notna {u : Cell} {q : ℚ} (h : pyFloat u = some q) : u.notna = true := by
  cases u <;> simp_all [pyFloat, Cell.notna]

theorem pyFloat_some_ne_empty {u : Cell} {q : ℚ} (h : pyFloat u = some q) :
    u ≠ Cell.str "" := by
  intro he
  subst he
  exact Option.noConfusion h

/-- C4: `dict(zip(keys, values))` has last-wins duplicate-key semantics —
for every assembly table, each of the two direction maps binds a key to
the value of the last matching record in source row order (stated as the
exact equation with `lastValue`, which reads the last pair of the key in
the filtered, source-ordered record list; when the key is absent both
sides are `none`). -/
theorem index_last_wins (adf : List AssemblyRow) (k : Cell) :
    package_to_assembly adf k = lastValue (outputPairs adf) k ∧
    assembly_to_input_package adf k = lastValue (inputPairs adf) k :=
  ⟨buildDict_eq_lastValue (outputPairs adf) k, buildDict_eq_lastValue (inputPairs adf) k⟩

/-- C9: when the first hop resolves the package label to a falsy assembly
number (the empty string or the number 0, with `truthy` the embedding of
Python truthiness), the second map is not consulted and the result is the
empty string, whatever `inM` contains. -/
theorem chainedLookup_falsy (outM inM : Cell → Option Cell) (label a : Cell)
    (h1 : outM label = some a) (h2 : a.truthy = false) :
    chainedLookup outM inM label = Cell.str "" := by
  simp [chainedLookup, h1, h2]

theorem chainedLookup_falsy_witness :
    (fun c => if c = Cell.str "L" then some (Cell.str "") else none) (Cell.str "L")
        = some (Cell.str "") ∧
    (fun c => if c = Cell.str "" then some (Cell.str "PKG-IN") else none) (Cell.str "")
        = some (Cell.str "PKG-IN") ∧
    (Cell.str "").truthy = false ∧
    chainedLookup (fun c => if c = Cell.str "L" then some (Cell.str "") else none)
      (fun c => if c = Cell.str "" then some (Cell.str "PKG-IN") else none)
      (Cell.str "L") = Cell.str "" ∧
    chainedLookup (fun c => if c = Cell.str "L" then some (Cell.num 0) else none)
      (fun c => if c = Cell.num 0 then some (Cell.str "PKG-IN") else none)
      (Cell.str "L") = Cell.str "" :=
  ⟨by decide, by decide, by decide,
    chainedLookup_falsy (fun c => if c = Cell.str "L" then some (Cell.str "") else none)
      (fun c => if c = Cell.str "" then some (Cell.str "PKG-IN") else none)
      (Cell.str "L") (Cell.str "") (by decide) (by decide),
    chainedLookup_falsy (fun c => if c = Cell.str "L" then some (Cell.num 0) else none)
      (fun c => if c = Cell.num 0 then some (Cell.str "PKG-IN") else none)
      (Cell.str "L") (Cell.num 0) (by decide) (by decide)⟩

/-- C3: with a product index, `cases` equals quantity divided by units per
case rounded to two decimals exactly when the looked-up units-per-case is
present and numeric with a value strictly greater than 0 and the quantity
is present and numeric; in every other case (absent key, missing value,
empty string, non-numeric text, zero or negative units) the result is the
blank marker `Cell.str ""`, which is distinct from the number 0, and the
computation is total (a raised `float` conversion is modelled by
`pyFloat = none` and degrades to blank). -/
theorem computeCases_spec (pl : Cell → Option Cell) (productId quantity : Cell) :
    (pl productId = none → computeCases pl productId quantity = Cell.str "") ∧
    (∀ u, pl productId = some u → pyFloat u = none →
      computeCases pl productId quantity = Cell.str "") ∧
    (∀ u uq, pl productId = some u → pyFloat u = some uq → uq ≤ 0 →
      computeCases pl productId quantity = Cell.str "") ∧
    (pyFloat quantity = none → computeCases pl productId quantity = Cell.str "") ∧
    (∀ u uq qq, pl productId = some u → pyFloat u = some uq → 0 < uq →
      pyFloat quantity = some qq →
      computeCases pl productId quantity = Cell.num (round2 (qq / uq))) ∧
    (Cell.str "" : Cell) ≠ Cell.num 0 := by
  refine ⟨?_, ?_, ?_, ?_, ?_, by decide⟩
  · intro h
    simp [computeCases, h]
  · intro u h hfu
    simp [computeCases, h, hfu]
  · intro u uq h hfu hle
    have hnot : ¬ 0 < uq := not_lt.mpr hle
    simp [computeCases, h, hfu, hnot]
  · intro hq
    cases hpl : pl productId with
    | none => simp [computeCases, hpl]
    | some u =>
      cases hfu : pyFloat u with
      | none => simp [computeCases, hpl, hfu]
      | some uq => simp [computeCases, hpl, hfu, hq]
  · intro u uq qq h hfu hpos hfq
    have h1 := pyFloat_some_notna hfu
    have h2 := pyFloat_some_ne_empty hfu
    have h3 := pyFloat_some_notna hfq
    have h4 := pyFloat_some_ne_empty hfq
    simp [computeCases, h, hfu, hfq, hpos, h1, h2, h3, h4]

theorem computeCases_spec_witness :
    ((fun c => if c = Cell.str "P1" then some (Cell.num 4) else none) (Cell.str "P1")
        = some (Cell.num 4) ∧
      pyFloat (Cell.num 4) = some 4 ∧ (0 : ℚ) < 4 ∧ pyFloat (Cell.num 10) = some 10 ∧
      computeCases (fun c => if c = Cell.str "P1" then some (Cell.num 4) else none)
        (Cell.str "P1") (Cell.num 10) = Cell.num (round2 (10 / 4))) ∧
    (pyFloat (Cell.num 0) = some 0 ∧ (0 : ℚ) ≤ 0 ∧
      computeCases (fun c => if c = Cell.str "P1" then some (Cell.num 0) else none)
        (Cell.str "P1") (Cell.num 10) = Cell.str "") :=
  ⟨⟨by decide, by decide, by norm_num, by decide,
    (computeCases_spec (fun c => if c = Cell.str "P1" then some (Cell.num 4) else none)
        (Cell.str "P1") (Cell.num 10)).2.2.2.2.1
      (Cell.num 4) 4 10 (by decide) (by decide) (by norm_num) (by decide)⟩,
   ⟨by decide, le_refl 0,
    (computeCases_spec (fun c => if c = Cell.str "P1" then some (Cell.num 0) else none)
        (Cell.str "P1") (Cell.num 10)).2.2.1
      (Cell.num 0) 0 (by decide) (by decide) (le_refl 0)⟩⟩

/-- C2: the two-hop chained lookup never fails and degrades to the empty
string — when the package label has no Output-direction match, or the
found assembly number has no Input-direction match, the normalized row
carries `input_package_number = ""`; the row is still produced (it is
dropped only by the customer filter, never by a lookup miss), and the
output row count equals the count of rows with a good customer, whatever
the assembly table contains. -/
theorem chained_lookup_degrades (so : List SalesRow) (adf : List AssemblyRow)
    (pdf : Option (List ProductRow)) (r : SalesRow) :
    (package_to_assembly adf r.package_label = none →
      (normalizeRow (package_to_assembly adf) (assembly_to_input_package adf)
        (pdf.map product_lookup) r).input_package_number = Cell.str "") ∧
    (∀ a, package_to_assembly adf r.package_label = some a →
      assembly_to_input_package adf a = none →
      (normalizeRow (package_to_assembly adf) (assembly_to_input_package adf)
        (pdf.map product_lookup) r).input_package_number = Cell.str "") ∧
    (r ∈ so → goodCust r.customer = true →
      normalizeRow (package_to_assembly adf) (assembly_to_input_package adf)
        (pdf.map product_lookup) r ∈ process_data so adf pdf) ∧
    (process_data so adf pdf).length = (so.filter (fun s => goodCust s.customer)).length := by
  refine ⟨?_, ?_, ?_, ?_⟩
  · intro h
    simp [normalizeRow, chainedLookup, h]
  · intro a h1 h2
    simp [normalizeRow, chainedLookup, h1, h2]
  · intro hmem hgood
    rw [process_data_eq]
    refine List.mem_mergeSort.mpr (List.mem_filter.mpr ⟨List.mem_map_of_mem _ hmem, ?_⟩)
    exact hgood
  · rw [process_data_eq, List.length_mergeSort, List.filter_map]
    rw [List.length_map]
    rfl

theorem chained_lookup_degrades_witness :
    package_to_assembly [AssemblyRow.mk (Cell.str "Input") (Cell.str "ASM-1") (Cell.str "PKG-IN-99")]
        (Cell.str "PKG-OUT-1") = none ∧
    ⟨Cell.str "Acme", Cell.str "SO1", Cell.str "Flower", Cell.str "OG", Cell.str "P1",
        Cell.str "B-100-1", Cell.str "PKG-OUT-1", Cell.num 10⟩ ∈
      ([⟨Cell.str "Acme", Cell.str "SO1", Cell.str "Flower", Cell.str "OG", Cell.str "P1",
        Cell.str "B-100-1", Cell.str "PKG-OUT-1", Cell.num 10⟩] : List SalesRow) ∧
    goodCust (Cell.str "Acme") = true ∧
    (normalizeRow
      (package_to_assembly [AssemblyRow.mk (Cell.str "Input") (Cell.str "ASM-1") (Cell.str "PKG-IN-99")])
      (assembly_to_input_package [AssemblyRow.mk (Cell.str "Input") (Cell.str "ASM-1") (Cell.str "PKG-IN-99")])
      (Option.map product_lookup none)
      ⟨Cell.str "Acme", Cell.str "SO1", Cell.str "Flower", Cell.str "OG", Cell.str "P1",
        Cell.str "B-100-1", Cell.str "PKG-OUT-1", Cell.num 10⟩).input_package_number = Cell.str "" ∧
    (normalizeRow
      (package_to_assembly [AssemblyRow.mk (Cell.str "Input") (Cell.str "ASM-1") (Cell.str "PKG-IN-99")])
      (assembly_to_input_package [AssemblyRow.mk (Cell.str "Input") (Cell.str "ASM-1") (Cell.str "PKG-IN-99")])
      (Option.map product_lookup none)
      ⟨Cell.str "Acme", Cell.str "SO1", Cell.str "Flower", Cell.str "OG", Cell.str "P1",
        Cell.str "B-100-1", Cell.str "PKG-OUT-1", Cell.num 10⟩) ∈
      process_data
        [⟨Cell.str "Acme", Cell.str "SO1", Cell.str "Flower", Cell.str "OG", Cell.str "P1",
          Cell.str "B-100-1", Cell.str "PKG-OUT-1", Cell.num 10⟩]
        [AssemblyRow.mk (Cell.str "Input") (Cell.str "ASM-1") (Cell.str "PKG-IN-99")] none :=
  ⟨by decide, by decide, by decide,
    (chained_lookup_degrades
      [⟨Cell.str "Acme", Cell.str "SO1", Cell.str "Flower", Cell.str "OG", Cell.str "P1",
        Cell.str "B-100-1", Cell.str "PKG-OUT-1", Cell.num 10⟩]
      [AssemblyRow.mk (Cell.str "Input") (Cell.str "ASM-1") (Cell.str "PKG-IN-99")] none
      ⟨Cell.str "Acme", Cell.str "SO1", Cell.str "Flower", Cell.str "OG", Cell.str "P1",
        Cell.str "B-100-1", Cell.str "PKG-OUT-1", Cell.num 10⟩).1 (by decide),
    (chained_lookup_degrades
      [⟨Cell.str "Acme", Cell.str "SO1", Cell.str "Flower", Cell.str "OG", Cell.str "P1",
        Cell.str "B-100-1", Cell.str "PKG-OUT-1", Cell.num 10⟩]
      [AssemblyRow.mk (Cell.str "Input") (Cell.str "ASM-1") (Cell.str "PKG-IN-99")] none
      ⟨Cell.str "Acme", Cell.str "SO1", Cell.str "Flower", Cell.str "OG", Cell.str "P1",
        Cell.str "B-100-1", Cell.str "PKG-OUT-1", Cell.num 10⟩).2.2.1 (by decide) (by decide)⟩

/-- C7: no row with a missing (NaN) or empty-string customer appears in the
output of the transform, and every sales row whose customer passes the
filter contributes its normalized row to the output. -/
theorem transform_customer_filter (so : List SalesRow) (adf : List AssemblyRow)
    (pdf : Option (List ProductRow)) :
    (∀ r ∈ process_data so adf pdf, r.customer ≠ Cell.na ∧ r.customer ≠ Cell.str "") ∧
    (∀ s ∈ so, goodCust s.customer = true →
      normalizeRow (package_to_assembly adf) (assembly_to_input_package adf)
        (pdf.map product_lookup) s ∈ process_data so adf pdf) := by
  constructor
  · intro r hr
    rw [process_data_eq] at hr
    have hf := List.mem_filter.mp (List.mem_mergeSort.mp hr)
    exact (goodCust_iff r.customer).mp hf.2
  · intro s hs hgood
    rw [process_data_eq]
    refine List.mem_mergeSort.mpr (List.mem_filter.mpr ⟨List.mem_map_of_mem _ hs, ?_⟩)
    exact hgood

theorem transform_customer_filter_witness :
    (⟨Cell.str "Acme", Cell.str "SO1", Cell.str "F", Cell.str "OG", Cell.na, Cell.na,
        Cell.na, Cell.num 1⟩ : SalesRow) ∈
      ([⟨Cell.str "Acme", Cell.str "SO1", Cell.str "F", Cell.str "OG", Cell.na, Cell.na,
        Cell.na, Cell.num 1⟩, ⟨Cell.na, Cell.str "SO2", Cell.str "F", Cell.str "OG", Cell.na,
        Cell.na, Cell.na, Cell.num 2⟩] : List SalesRow) ∧
    goodCust (Cell.str "Acme") = true ∧
    (normalizeRow (package_to_assembly []) (assembly_to_input_package [])
      (Option.map product_lookup none)
      ⟨Cell.str "Acme", Cell.str "SO1", Cell.str "F", Cell.str "OG", Cell.na, Cell.na,
        Cell.na, Cell.num 1⟩) ∈
      process_data
        [⟨Cell.str "Acme", Cell.str "SO1", Cell.str "F", Cell.str "OG", Cell.na, Cell.na,
          Cell.na, Cell.num 1⟩, ⟨Cell.na, Cell.str "SO2", Cell.str "F", Cell.str "OG", Cell.na,
          Cell.na, Cell.na, Cell.num 2⟩] [] none :=
  ⟨by decide, by decide,
    (transform_customer_filter
      [⟨Cell.str "Acme", Cell.str "SO1", Cell.str "F", Cell.str "OG", Cell.na, Cell.na,
        Cell.na, Cell.num 1⟩, ⟨Cell.na, Cell.str "SO2", Cell.str "F", Cell.str "OG", Cell.na,
        Cell.na, Cell.na, Cell.num 2⟩] [] none).2
      ⟨Cell.str "Acme", Cell.str "SO1", Cell.str "F", Cell.str "OG", Cell.na, Cell.na,
        Cell.na, Cell.num 1⟩ (by decide) (by decide)⟩

/-- C1: the final sort of the transform is stable — any two normalized rows
with identical (customer, order number, category, product) keys that both
survive the customer filter keep, in the output of `process_data`, the
relative order they had among the surviving rows of the input table
(stated via sublists: the ordered pair embeds in the survivor list in
input order, hence also in the sorted output). -/
theorem transform_sort_stable (so : List SalesRow) (adf : List AssemblyRow)
    (pdf : Option (List ProductRow)) (a b : NormalizedRow)
    (hkey : keyOf a = keyOf b)
    (hsub : [a, b].Sublist ((so.map (normalizeRow (package_to_assembly adf)
      (assembly_to_input_package adf) (pdf.map product_lookup))).filter goodCustomer)) :
    [a, b].Sublist (process_data so adf pdf) := by
  rw [process_data_eq]
  exact List.pair_sublist_mergeSort rowLe_trans rowLe_total (rowLe_of_key_eq hkey) hsub

theorem transform_sort_stable_witness :
    keyOf (normalizeRow (package_to_assembly []) (assembly_to_input_package [])
        (Option.map product_lookup none)
        ⟨Cell.str "Acme", Cell.str "SO1", Cell.str "F", Cell.str "OG", Cell.na, Cell.na,
          Cell.na, Cell.num 1⟩) =
      keyOf (normalizeRow (package_to_assembly []) (assembly_to_input_package [])
        (Option.map product_lookup none)
        ⟨Cell.str "Acme", Cell.str "SO1", Cell.str "F", Cell.str "OG", Cell.na, Cell.na,
          Cell.na, Cell.num 2⟩) ∧
    [normalizeRow (package_to_assembly []) (assembly_to_input_package [])
        (Option.map product_lookup none)
        ⟨Cell.str "Acme", Cell.str "SO1", Cell.str "F", Cell.str "OG", Cell.na, Cell.na,
          Cell.na, Cell.num 1⟩,
      normalizeRow (package_to_assembly []) (assembly_to_input_package [])
        (Option.map product_lookup none)
        ⟨Cell.str "Acme", Cell.str "SO1", Cell.str "F", Cell.str "OG", Cell.na, Cell.na,
          Cell.na, Cell.num 2⟩].Sublist
      (process_data
        [⟨Cell.str "Acme", Cell.str "SO1", Cell.str "F", Cell.str "OG", Cell.na, Cell.na,
          Cell.na, Cell.num 1⟩,
         ⟨Cell.str "Acme", Cell.str "SO1", Cell.str "F", Cell.str "OG", Cell.na, Cell.na,
          Cell.na, Cell.num 2⟩] [] none) :=
  ⟨by decide,
    transform_sort_stable
      [⟨Cell.str "Acme", Cell.str "SO1", Cell.str "F", Cell.str "OG", Cell.na, Cell.na,
        Cell.na, Cell.num 1⟩,
       ⟨Cell.str "Acme", Cell.str "SO1", Cell.str "F", Cell.str "OG", Cell.na, Cell.na,
        Cell.na, Cell.num 2⟩] [] none
      (normalizeRow (package_to_assembly []) (assembly_to_input_package [])
        (Option.map product_lookup none)
        ⟨Cell.str "Acme", Cell.str "SO1", Cell.str "F", Cell.str "OG", Cell.na, Cell.na,
          Cell.na, Cell.num 1⟩)
      (normalizeRow (package_to_assembly []) (assembly_to_input_package [])
        (Option.map product_lookup none)
        ⟨Cell.str "Acme", Cell.str "SO1", Cell.str "F", Cell.str "OG", Cell.na, Cell.na,
          Cell.na, Cell.num 2⟩)
      (by decide) (by decide)⟩

/-- C8: the cascading orders candidate list is monotone under customer
restriction — with a non-empty customer selection, every offered order
number is also offered with no selection, because selecting customers only
restricts the rows considered. -/
theorem availableOrders_subset (table : List NormalizedRow) (C : List Cell) (hC : C ≠ []) :
    ∀ x ∈ availableOrders table C, x ∈ availableOrders table [] := by
  intro x hx
  have hCe : C.isEmpty = false := by
    cases C with
    | nil => exact absurd rfl hC
    | cons c cs => rfl
  simp only [availableOrders, hCe, Bool.false_eq_true, if_false, List.isEmpty_nil,
    if_true] at hx ⊢
  have h1 := (mem_uniqueFirst x _).mp (List.mem_mergeSort.mp hx)
  obtain ⟨r, hr, hxr⟩ := List.mem_map.mp h1
  exact List.mem_mergeSort.mpr ((mem_uniqueFirst x _).mpr
    (List.mem_map.mpr ⟨r, List.mem_of_mem_filter hr, hxr⟩))

theorem availableOrders_subset_witness :
    ([Cell.str "Acme"] : List Cell) ≠ [] ∧
    Cell.str "SO1" ∈ availableOrders
      [⟨Cell.str "Acme", Cell.str "SO1", Cell.str "F", Cell.str "OG", Cell.na, Cell.str "",
        Cell.num 1, Cell.str ""⟩,
       ⟨Cell.str "Bulk", Cell.str "SO2", Cell.str "F", Cell.str "OG", Cell.na, Cell.str "",
        Cell.num 2, Cell.str ""⟩] [Cell.str "Acme"] ∧
    Cell.str "SO1" ∈ availableOrders
      [⟨Cell.str "Acme", Cell.str "SO1", Cell.str "F", Cell.str "OG", Cell.na, Cell.str "",
        Cell.num 1, Cell.str ""⟩,
       ⟨Cell.str "Bulk", Cell.str "SO2", Cell.str "F", Cell.str "OG", Cell.na, Cell.str "",
        Cell.num 2, Cell.str ""⟩] [] := by
  have hx : Cell.str "SO1" ∈ availableOrders
      [⟨Cell.str "Acme", Cell.str "SO1", Cell.str "F", Cell.str "OG", Cell.na, Cell.str "",
        Cell.num 1, Cell.str ""⟩,
       ⟨Cell.str "Bulk", Cell.str "SO2", Cell.str "F", Cell.str "OG", Cell.na, Cell.str "",
        Cell.num 2, Cell.str ""⟩] [Cell.str "Acme"] := by
    simp only [availableOrders]
    exact List.mem_mergeSort.mpr (by decide)
  refine ⟨by decide, hx, ?_⟩
  exact availableOrders_subset
    [⟨Cell.str "Acme", Cell.str "SO1", Cell.str "F", Cell.str "OG", Cell.na, Cell.str "",
      Cell.num 1, Cell.str ""⟩,
     ⟨Cell.str "Bulk", Cell.str "SO2", Cell.str "F", Cell.str "OG", Cell.na, Cell.str "",
      Cell.num 2, Cell.str ""⟩] [Cell.str "Acme"] (by decide) (Cell.str "SO1") hx

/-- C10: the three boolean-mask filters keep surviving rows in their input
relative order — the filtered result is a sublist of the input table, so a
table sorted by the (customer, order number, category, product) key stays
sorted after filtering; filtering never reorders rows. -/
theorem applyFilters_preserves_order (table : List NormalizedRow) (c : FilterCriteria) :
    (applyFilters table c).Sublist table ∧
    (List.Pairwise (fun a b => rowLe a b = true) table →
      List.Pairwise (fun a b => rowLe a b = true) (applyFilters table c)) := by
  have hsub : (applyFilters table c).Sublist table := by
    simp only [applyFilters]
    split <;> split <;> split <;>
      first
        | exact List.Sublist.refl _
        | exact List.filter_sublist _
        | exact (List.filter_sublist _).trans (List.filter_sublist _)
        | exact ((List.filter_sublist _).trans (List.filter_sublist _)).trans
            (List.filter_sublist _)
  exact ⟨hsub, fun hp => List.Pairwise.sublist hsub hp⟩

theorem applyFilters_preserves_order_witness :
    List.Pairwise (fun a b => rowLe a b = true)
      ([⟨Cell.str "Acme", Cell.num 1, Cell.str "F", Cell.str "OG", Cell.na, Cell.str "",
          Cell.num 1, Cell.str ""⟩,
        ⟨Cell.str "Acme", Cell.num 2, Cell.str "F", Cell.str "OG", Cell.na, Cell.str "",
          Cell.num 2, Cell.str ""⟩] : List NormalizedRow) ∧
    (applyFilters
        [⟨Cell.str "Acme", Cell.num 1, Cell.str "F", Cell.str "OG", Cell.na, Cell.str "",
          Cell.num 1, Cell.str ""⟩,
         ⟨Cell.str "Acme", Cell.num 2, Cell.str "F", Cell.str "OG", Cell.na, Cell.str "",
          Cell.num 2, Cell.str ""⟩]
        ⟨[Cell.str "Acme"], [], []⟩).Sublist
      [⟨Cell.str "Acme", Cell.num 1, Cell.str "F", Cell.str "OG", Cell.na, Cell.str "",
          Cell.num 1, Cell.str ""⟩,
       ⟨Cell.str "Acme", Cell.num 2, Cell.str "F", Cell.str "OG", Cell.na, Cell.str "",
          Cell.num 2, Cell.str ""⟩] ∧
    List.Pairwise (fun a b => rowLe a b = true)
      (applyFilters
        [⟨Cell.str "Acme", Cell.num 1, Cell.str "F", Cell.str "OG", Cell.na, Cell.str "",
          Cell.num 1, Cell.str ""⟩,
         ⟨Cell.str "Acme", Cell.num 2, Cell.str "F", Cell.str "OG", Cell.na, Cell.str "",
          Cell.num 2, Cell.str ""⟩]
        ⟨[Cell.str "Acme"], [], []⟩) :=
  ⟨by decide,
    (applyFilters_preserves_order
      [⟨Cell.str "Acme", Cell.num 1, Cell.str "F", Cell.str "OG", Cell.na, Cell.str "",
          Cell.num 1, Cell.str ""⟩,
       ⟨Cell.str "Acme", Cell.num 2, Cell.str "F", Cell.str "OG", Cell.na, Cell.str "",
          Cell.num 2, Cell.str ""⟩]
      ⟨[Cell.str "Acme"], [], []⟩).1,
    (applyFilters_preserves_order
      [⟨Cell.str "Acme", Cell.num 1, Cell.str "F", Cell.str "OG", Cell.na, Cell.str "",
          Cell.num 1, Cell.str ""⟩,
       ⟨Cell.str "Acme", Cell.num 2, Cell.str "F", Cell.str "OG", Cell.na, Cell.str "",
          Cell.num 2, Cell.str ""⟩]
      ⟨[Cell.str "Acme"], [], []⟩).2 (by decide)⟩

theorem contPages_nil_hdr (cap : Nat) : ∀ (fuel : Nat) (rows : List α),
    contPages [] cap fuel rows = chunkPages cap fuel rows := by
  intro fuel
  induction fuel with
  | zero =>
    intro rows
    cases rows <;> rfl
  | succ n ih =>
    intro rows
    cases rows with
    | nil => rfl
    | cons a as =>
      simp only [contPages, chunkPages, List.nil_append, List.length_nil, Nat.sub_zero]
      rw [ih]

theorem chunkPages_fuel (cap : Nat) (hcap : 0 < cap) : ∀ (f1 f2 : Nat) (rows : List α),
    rows.length ≤ f1 → rows.length ≤ f2 → chunkPages cap f1 rows = chunkPages cap f2 rows := by
  intro f1
  induction f1 with
  | zero =>
    intro f2 rows h1 h2
    have hr : rows = [] := List.length_eq_zero.mp (Nat.le_zero.mp h1)
    subst hr
    cases f2 <;> rfl
  | succ n ih =>
    intro f2 rows h1 h2
    cases rows with
    | nil => cases f2 <;> rfl
    | cons a as =>
      cases f2 with
      | zero => simp at h2
      | succ m =>
        simp only [chunkPages]
        congr 1
        apply ih
        · rw [List.length_drop]
          simp only [List.length_cons] at h1 ⊢
          omega
        · rw [List.length_drop]
          simp only [List.length_cons] at h2 ⊢
          omega

theorem splitPages_zero (td : List α) (cap : Nat) (hcap : 0 < cap) :
    splitPages td 0 cap = chunks cap td := by
  cases td with
  | nil => rfl
  | cons a as =>
    simp only [splitPages, List.isEmpty_cons, Bool.false_eq_true, if_false, List.take_zero,
      contPages_nil_hdr, chunks, List.length_cons]
    simp only [chunkPages]
    congr 1
    apply chunkPages_fuel cap hcap
    · rw [List.length_drop]
      simp only [List.length_cons]
      omega
    · rw [List.length_drop]
      simp only [List.length_cons]
      omega

theorem generate_pdf_header_not_on_every_page :
    (generate_pdf_pages "HDR" ["r1", "r2", "r3"] 2).length = 2 ∧
    ¬ (∀ p ∈ generate_pdf_pages "HDR" ["r1", "r2", "r3"] 2, p.head? = some "HDR") := by
  decide

/-- C5 amended: the header row is not repeated — `generate_pdf` builds its
table with ReportLab's default `repeatRows = 0` (the source comment reads
"Create table without header repetition"), so the rendered pages are
exactly the header row followed by the data rows, chunked in order into
fixed-size pages: the header appears only at the top of the first page and
every later page begins with the next data rows. -/
theorem generate_pdf_no_header_repeat (hdr : α) (rows : List α) (cap : Nat)
    (hcap : 0 < cap) :
    generate_pdf_pages hdr rows cap = chunks cap (hdr :: rows) :=
  splitPages_zero (hdr :: rows) cap hcap

theorem generate_pdf_no_header_repeat_witness :
    (0 : Nat) < 2 ∧
    generate_pdf_pages "HDR" ["r1", "r2", "r3"] 2 = chunks 2 ("HDR" :: ["r1", "r2", "r3"]) :=
  ⟨by decide, generate_pdf_no_header_repeat "HDR" ["r1", "r2", "r3"] 2 (by decide)⟩

theorem findBreak_eq_none_iff (t : List Char) (lo : Nat) : ∀ hi,
    (findBreak t lo hi = none ↔ breakInRegion t lo hi = false) := by
  intro hi
  induction hi with
  | zero => simp [findBreak, breakInRegion]
  | succ v ih =>
    simp only [findBreak, breakInRegion]
    by_cases h1 : v + 1 ≤ lo
    · simp [h1]
    · simp only [if_neg h1]
      by_cases h2 : v + 1 < t.length
      · simp only [if_pos h2]
        cases hg : t.get? v with
        | none => simpa using ih
        | some c =>
          by_cases hc1 : c = '-'
          · subst hc1
            simp [isBreakChar]
          · by_cases hc2 : c = ' '
            · subst hc2
              simp [isBreakChar]
            · simpa [isBreakChar, hc1, hc2] using ih
      · simp only [if_neg h2]
        exact ih

theorem findCharDown_none_iff (t : List Char) (lo : Nat) : ∀ hi,
    ((findCharDown t '-' lo hi = none ∧ findCharDown t ' ' lo hi = none) ↔
      breakInRegion t lo hi = false) := by
  intro hi
  induction hi with
  | zero => simp [findCharDown, breakInRegion]
  | succ v ih =>
    simp only [findCharDown, breakInRegion]
    by_cases h1 : v + 1 ≤ lo
    · simp [h1]
    · simp only [if_neg h1]
      by_cases h2 : v + 1 < t.length
      · simp only [if_pos h2]
        cases hg : t.get? v with
        | none => simpa using ih
        | some c =>
          by_cases hc1 : c = '-'
          · subst hc1
            simp [isBreakChar]
          · by_cases hc2 : c = ' '
            · subst hc2
              simp [isBreakChar]
            · simpa [isBreakChar, hc1, hc2] using ih
      · simp only [if_neg h2]
        exact ih

theorem findBreak_sound (t : List Char) (lo : Nat) : ∀ hi i,
    ((findBreak t lo hi = some (BreakHit.hyphen i) →
      lo < i ∧ i < t.length ∧ t.get? (i - 1) = some '-') ∧
     (findBreak t lo hi = some (BreakHit.space i) →
      lo < i ∧ i < t.length ∧ t.get? (i - 1) = some ' ')) := by
  intro hi
  induction hi with
  | zero => intro i; simp [findBreak]
  | succ v ih =>
    intro i
    simp only [findBreak]
    by_cases h1 : v + 1 ≤ lo
    · simp [h1]
    · simp only [if_neg h1]
      by_cases h2 : v + 1 < t.length
      · simp only [if_pos h2]
        cases hg : t.get? v with
        | none => exact ih i
        | some c =>
          by_cases hc1 : c = '-'
          · subst hc1
            simp only [if_pos rfl]
            constructor
            · intro h
              have h3 : v + 1 = i := by
                simpa using h
              subst h3
              refine ⟨by omega, h2, ?_⟩
              simpa using hg
            · intro h
              simp at h
          · by_cases hc2 : c = ' '
            · subst hc2
              simp only [if_neg hc1, if_pos rfl]
              constructor
              · intro h
                simp at h
              · intro h
                have h3 : v + 1 = i := by
                  simpa using h
                subst h3
                refine ⟨by omega, h2, ?_⟩
                simpa using hg
            · simp only [if_neg hc1, if_neg hc2]
              exact ih i
      · simp only [if_neg h2]
        exact ih i

theorem findCharDown_sound (t : List Char) (c : Char) (lo : Nat) : ∀ hi i,
    findCharDown t c lo hi = some i →
      lo < i ∧ i < t.length ∧ t.get? (i - 1) = some c := by
  intro hi
  induction hi with
  | zero => intro i; simp [findCharDown]
  | succ v ih =>
    intro i
    simp only [findCharDown]
    by_cases h1 : v + 1 ≤ lo
    · simp [h1]
    · simp only [if_neg h1]
      by_cases h2 : v + 1 < t.length
      · simp only [if_pos h2]
        cases hg : t.get? v with
        | none => exact ih i
        | some c2 =>
          by_cases hc : c2 = c
          · subst hc
            simp only [if_pos rfl]
            intro h
            have h3 : v + 1 = i := by
              simpa using h
            subst h3
            refine ⟨by omega, h2, ?_⟩
            simpa using hg
          · simp only [if_neg hc]
            exact ih i
      · simp only [if_neg h2]
        exact ih i

theorem pyStrip_cons_of_whitespace {c : Char} (h : c.isWhitespace = true) (l : List Char) :
    pyStrip (c :: l) = pyStrip l := by
  simp [pyStrip, List.dropWhile_cons, h]

theorem pyStrip_drop_pred_of_space {s : List Char} {j : Nat} (hj : 0 < j)
    (hlt : j - 1 < s.length) (hg : s.get? (j - 1) = some ' ') :
    pyStrip (s.drop (j - 1)) = pyStrip (s.drop j) := by
  have hElem : s[j - 1] = ' ' := by
    have h1 := hg
    rw [List.get?_eq_getElem?, List.getElem?_eq_getElem hlt] at h1
    exact Option.some.inj h1
  have h2 := @List.cons_getElem_drop_succ Char s (j - 1) hlt
  rw [hElem, Nat.sub_add_cancel hj] at h2
  rw [← h2]
  exact pyStrip_cons_of_whitespace (by decide) _

theorem wrap_text_cuts_midword :
    breakInRegion "abcdefghijklmnopqrstuvwxyz".toList (max (20 / 2) 1) 20 = false ∧
    wrap_text "abcdefghijklmnopqrstuvwxyz" 20 ≠ "abcdefghijklmnopqrstuvwxyz" ∧
    wrap_text "abcdefghijklmnopqrstuvwxyz" 20 =
      ("abcdefghijklmnopqrst".toList ++ '\n' :: "uvwxyz".toList).asString := by
  decide

/-- C6 amended: `wrap_text_smart` never splits a word — with no break
character in its searched region it returns the stripped text unwrapped,
and in general its output is either the unwrapped text or a split placed
at a hyphen or space; `wrap_text`, by contrast, hard-breaks at exactly the
budget boundary (splitting mid-word) when no break character occurs in its
searched region, and splits at a hyphen or space whenever its region
offers one. -/
theorem wrap_never_midword (text : String) (mc : Nat) :
    (breakInRegion text.toList (max (mc / 2) 1) mc = false →
      wrap_text text mc =
        if text = "" ∨ text.length ≤ mc then text
        else (text.toList.take mc ++ '\n' :: text.toList.drop mc).asString) ∧
    (mc < text.length → text ≠ "" →
      breakInRegion text.toList (max (mc / 2) 1) mc = true →
      splitsAtBreak text.toList (wrap_text text mc)) ∧
    (breakInRegion (pyStrip text.toList) (max (mc / 3) 5) mc = false →
      wrap_text_smart_core text mc = (pyStrip text.toList).asString) ∧
    (wrap_text_smart_core text mc = (pyStrip text.toList).asString ∨
      splitsAtBreak (pyStrip text.toList) (wrap_text_smart_core text mc)) := by
  refine ⟨?_, ?_, ?_, ?_⟩
  · intro hbr
    by_cases hshort : text = "" ∨ text.length ≤ mc
    · simp only [wrap_text, if_pos hshort]
    · simp only [wrap_text, if_neg hshort]
      rw [(findBreak_eq_none_iff text.toList (max (mc / 2) 1) mc).mpr hbr]
  · intro hlen hne hbr
    have hcond : ¬(text = "" ∨ text.length ≤ mc) := not_or.mpr ⟨hne, not_le.mpr hlen⟩
    simp only [wrap_text, if_neg hcond]
    cases hfb : findBreak text.toList (max (mc / 2) 1) mc with
    | none =>
      rw [(findBreak_eq_none_iff _ _ mc).mp hfb] at hbr
      exact absurd hbr (by simp)
    | some hit =>
      cases hit with
      | hyphen i =>
        obtain ⟨hlo, hilen, hchar⟩ := (findBreak_sound text.toList (max (mc / 2) 1) mc i).1 hfb
        exact ⟨i, by omega, by omega, Or.inl ⟨hchar, rfl⟩⟩
      | space i =>
        obtain ⟨hlo, hilen, hchar⟩ := (findBreak_sound text.toList (max (mc / 2) 1) mc i).2 hfb
        exact ⟨i, by omega, by omega, Or.inr ⟨hchar, rfl⟩⟩
  · intro hbr
    by_cases h0 : text = ""
    · subst h0
      rfl
    · by_cases hEmp : (pyStrip text.toList).isEmpty = true
      · simp only [wrap_text_smart_core, if_neg h0, if_pos hEmp]
        rw [List.isEmpty_iff.mp hEmp]
        rfl
      · by_cases hLen : (pyStrip text.toList).length ≤ mc
        · simp only [wrap_text_smart_core, if_neg h0, if_neg hEmp, if_pos hLen]
        · simp only [wrap_text_smart_core, if_neg h0, if_neg hEmp, if_neg hLen]
          obtain ⟨hd, hsp⟩ := (findCharDown_none_iff (pyStrip text.toList) (max (mc / 3) 5) mc).mpr hbr
          rw [hd, hsp]
          rfl
  · by_cases h0 : text = ""
    · left
      subst h0
      rfl
    · by_cases hEmp : (pyStrip text.toList).isEmpty = true
      · left
        simp only [wrap_text_smart_core, if_neg h0, if_pos hEmp]
        rw [List.isEmpty_iff.mp hEmp]
        rfl
      · by_cases hLen : (pyStrip text.toList).length ≤ mc
        · left
          simp only [wrap_text_smart_core, if_neg h0, if_neg hEmp, if_pos hLen]
        · cases hfh : findCharDown (pyStrip text.toList) '-' (max (mc / 3) 5) mc with
          | some i =>
            obtain ⟨hlo, hilen, hchar⟩ := findCharDown_sound _ '-' _ mc i hfh
            by_cases hb0 : i = 0 ∨ i < mc / 3
            · left
              simp only [wrap_text_smart_core, if_neg h0, if_neg hEmp, if_neg hLen, hfh]
              rw [if_pos hb0]
            · right
              simp only [wrap_text_smart_core, if_neg h0, if_neg hEmp, if_neg hLen, hfh]
              rw [if_neg hb0]
              exact ⟨i, by omega, by omega, Or.inl ⟨hchar, rfl⟩⟩
          | none =>
            cases hfs : findCharDown (pyStrip text.toList) ' ' (max (mc / 3) 5) mc with
            | none =>
              left
              simp only [wrap_text_smart_core, if_neg h0, if_neg hEmp, if_neg hLen, hfh, hfs]
              rfl
            | some j =>
              obtain ⟨hlo, hjlen, hchar⟩ := findCharDown_sound _ ' ' _ mc j hfs
              by_cases hb0 : j - 1 = 0 ∨ j - 1 < mc / 3
              · left
                simp only [wrap_text_smart_core, if_neg h0, if_neg hEmp, if_neg hLen, hfh, hfs,
                  Option.map_some']
                rw [if_pos hb0]
              · right
                simp only [wrap_text_smart_core, if_neg h0, if_neg hEmp, if_neg hLen, hfh, hfs,
                  Option.map_some']
                rw [if_neg hb0]
                refine ⟨j, by omega, by omega, Or.inr ⟨hchar, ?_⟩⟩
                rw [pyStrip_drop_pred_of_space (by omega) (by omega) hchar]

theorem wrap_never_midword_witness :
    (breakInRegion "abcd".toList (max (2 / 2) 1) 2 = false ∧
      wrap_text "abcd" 2 =
        if ("abcd" : String) = "" ∨ ("abcd" : String).length ≤ 2 then "abcd"
        else ("abcd".toList.take 2 ++ '\n' :: "abcd".toList.drop 2).asString) ∧
    (20 < ("abcdefghijklmn-pqrstuvwxyz" : String).length ∧
      ("abcdefghijklmn-pqrstuvwxyz" : String) ≠ "" ∧
      breakInRegion "abcdefghijklmn-pqrstuvwxyz".toList (max (20 / 2) 1) 20 = true ∧
      splitsAtBreak "abcdefghijklmn-pqrstuvwxyz".toList
        (wrap_text "abcdefghijklmn-pqrstuvwxyz" 20)) ∧
    (breakInRegion (pyStrip "abcdefghijklmnopqrstuvwxyz".toList) (max (20 / 3) 5) 20 = false ∧
      wrap_text_smart_core "abcdefghijklmnopqrstuvwxyz" 20 =
        (pyStrip "abcdefghijklmnopqrstuvwxyz".toList).asString) :=
  ⟨⟨by decide, (wrap_never_midword "abcd" 2).1 (by decide)⟩,
   ⟨by decide, by decide, by decide,
     (wrap_never_midword "abcdefghijklmn-pqrstuvwxyz" 20).2.1 (by decide) (by decide) (by decide)⟩,
   ⟨by decide, (wrap_never_midword "abcdefghijklmnopqrstuvwxyz" 20).2.2.1 (by decide)⟩⟩
